import Mathlib

/-!
Verification of the CareerOS repository: a shallow embedding of the
accomplishment store (`src/utils/db_manager.py`), the completion client
(`src/utils/llm_helper.py`) and the finalize / filename logic of the
session application (`src/Home.py`), together with theorems settling the
spec claims.

Modelling conventions:
* Python text is `List Char` (abbreviated `Str`).
* The spreadsheet backend is a list of cell rows (`Sheet`); `gspread`'s
  `Worksheet.find(query)` is modelled as the documented row-major scan for
  the first cell whose value equals the query.
* External collaborators (uuid generation, pandas date parsing / rendering,
  the generative backend call and its parser) are explicit parameters of
  the embedded functions; everything the repository itself computes is
  translated directly.
* `json.loads` is modelled by an executable recursive-descent JSON parser
  (`jsonLoads`); the non-standard `NaN`/`Infinity` extensions of the Python
  module are not modelled, no theorem below depends on them.
-/

namespace CareerOS

/-- Program text: Python strings, modelled as lists of characters. -/
abbrev Str := List Char

/-- The whitespace class of Python's `str.strip` / regex `\s`, restricted to
the ASCII range (space, tab, newline, carriage return, vertical tab, form
feed).  All inputs manipulated by the repository's fence stripping are model
output around JSON, for which this class is exact. -/
def isPySpace (c : Char) : Bool :=
  ([' ', '\t', '\n', '\r', Char.ofNat 11, Char.ofNat 12] : List Char).contains c

/-- Python `str.lstrip()` with no argument. -/
def lstripPy (s : Str) : Str := s.dropWhile isPySpace

/-- Python `str.rstrip()` with no argument. -/
def rstripPy (s : Str) : Str := (s.reverse.dropWhile isPySpace).reverse

/-- Python `str.strip()` with no argument. -/
def pyStrip (s : Str) : Str := rstripPy (lstripPy s)

/-- Drop the last `n` characters. -/
def dropLastN (n : Nat) (s : Str) : Str := (s.reverse.drop n).reverse

/-! ## JSON values and a model of `json.loads` -/

/-- JSON values.  Numbers keep their lexeme: no numeric semantics is needed
by any claim. -/
inductive JVal where
  | jnull : JVal
  | jbool : Bool → JVal
  | jnum : Str → JVal
  | jstr : Str → JVal
  | jarr : List JVal → JVal
  | jobj : List (Str × JVal) → JVal

/-- JSON whitespace (RFC 8259), as skipped by `json.loads`. -/
def isJWs (c : Char) : Bool := ([' ', '\t', '\n', '\r'] : List Char).contains c

def skipJWs (s : Str) : Str := s.dropWhile isJWs

def hexVal (c : Char) : Option Nat :=
  if 48 ≤ c.toNat ∧ c.toNat ≤ 57 then some (c.toNat - 48)
  else if 97 ≤ c.toNat ∧ c.toNat ≤ 102 then some (c.toNat - 87)
  else if 65 ≤ c.toNat ∧ c.toNat ≤ 70 then some (c.toNat - 55)
  else none

def escChar : Char → Option Char
  | '"' => some '"'
  | '\\' => some '\\'
  | '/' => some '/'
  | 'b' => some (Char.ofNat 8)
  | 'f' => some (Char.ofNat 12)
  | 'n' => some '\n'
  | 'r' => some '\r'
  | 't' => some '\t'
  | _ => none

/-- Parse a JSON string body (the opening quote already consumed); returns
the decoded content and the remaining input. -/
def pJStr : Str → Option (Str × Str)
  | [] => none
  | c :: rest =>
    if c == '"' then some ([], rest)
    else if c == '\\' then
      match rest with
      | [] => none
      | 'u' :: h1 :: h2 :: h3 :: h4 :: rest2 =>
        match hexVal h1, hexVal h2, hexVal h3, hexVal h4 with
        | some a, some b, some d, some e =>
          (pJStr rest2).map
            (fun r => (Char.ofNat (((a * 16 + b) * 16 + d) * 16 + e) :: r.1, r.2))
        | _, _, _, _ => none
      | e :: rest2 =>
        if e == 'u' then none
        else (escChar e).bind (fun ch => (pJStr rest2).map (fun r => (ch :: r.1, r.2)))
    else if c.toNat < 32 then none
    else (pJStr rest).map (fun r => (c :: r.1, r.2))

/-- Integer part of a JSON number (sign already consumed). -/
def pJInt : Str → Option (Str × Str)
  | [] => none
  | '0' :: r => some (['0'], r)
  | c :: r =>
    if c.isDigit then some (c :: r.takeWhile Char.isDigit, r.dropWhile Char.isDigit)
    else none

/-- Optional fraction part of a JSON number. -/
def pJFrac : Str → Option (Str × Str)
  | '.' :: r =>
    let ds := r.takeWhile Char.isDigit
    if ds.isEmpty then none else some ('.' :: ds, r.dropWhile Char.isDigit)
  | s => some ([], s)

/-- Optional exponent part of a JSON number. -/
def pJExp : Str → Option (Str × Str)
  | [] => some ([], [])
  | c :: r =>
    if c == 'e' || c == 'E' then
      match r with
      | [] => none
      | s :: r2 =>
        if s == '+' || s == '-' then
          let ds := r2.takeWhile Char.isDigit
          if ds.isEmpty then none
          else some (c :: s :: ds, r2.dropWhile Char.isDigit)
        else
          let ds := r.takeWhile Char.isDigit
          if ds.isEmpty then none
          else some (c :: ds, r.dropWhile Char.isDigit)
    else some ([], c :: r)

def pJNum (s : Str) : Option (Str × Str) :=
  match s with
  | '-' :: r =>
    (pJInt r).bind fun ir =>
      (pJFrac ir.2).bind fun fr =>
        (pJExp fr.2).map fun er => ('-' :: (ir.1 ++ fr.1 ++ er.1), er.2)
  | _ =>
    (pJInt s).bind fun ir =>
      (pJFrac ir.2).bind fun fr =>
        (pJExp fr.2).map fun er => (ir.1 ++ fr.1 ++ er.1, er.2)

def dropLit (lit s : Str) : Option Str :=
  if lit.isPrefixOf s then some (s.drop lit.length) else none

mutual

def pJVal : Nat → Str → Option (JVal × Str)
  | 0, _ => none
  | fuel + 1, s =>
    match skipJWs s with
    | [] => none
    | c :: rest =>
      if c == '{' then
        match skipJWs rest with
        | '}' :: r2 => some (JVal.jobj [], r2)
        | r2 => (pJMembers fuel r2).map (fun mr => (JVal.jobj mr.1, mr.2))
      else if c == '[' then
        match skipJWs rest with
        | ']' :: r2 => some (JVal.jarr [], r2)
        | r2 => (pJItems fuel r2).map (fun ir => (JVal.jarr ir.1, ir.2))
      else if c == '"' then
        (pJStr rest).map (fun sr => (JVal.jstr sr.1, sr.2))
      else if c == 't' then
        (dropLit ['r', 'u', 'e'] rest).map (fun r => (JVal.jbool true, r))
      else if c == 'f' then
        (dropLit ['a', 'l', 's', 'e'] rest).map (fun r => (JVal.jbool false, r))
      else if c == 'n' then
        (dropLit ['u', 'l', 'l'] rest).map (fun r => (JVal.jnull, r))
      else
        (pJNum (c :: rest)).map (fun nr => (JVal.jnum nr.1, nr.2))

def pJMembers : Nat → Str → Option (List (Str × JVal) × Str)
  | 0, _ => none
  | fuel + 1, s =>
    match skipJWs s with
    | '"' :: rest =>
      (pJStr rest).bind fun kr =>
        match skipJWs kr.2 with
        | ':' :: r2 =>
          (pJVal fuel r2).bind fun vr =>
            (match skipJWs vr.2 with
             | ',' :: r4 => (pJMembers fuel r4).map (fun mr => ((kr.1, vr.1) :: mr.1, mr.2))
             | '}' :: r4 => some ([(kr.1, vr.1)], r4)
             | _ => none)
        | _ => none
    | _ => none

def pJItems : Nat → Str → Option (List JVal × Str)
  | 0, _ => none
  | fuel + 1, s =>
    (pJVal fuel s).bind fun vr =>
      match skipJWs vr.2 with
      | ',' :: r2 => (pJItems fuel r2).map (fun ir => (vr.1 :: ir.1, ir.2))
      | ']' :: r2 => some ([vr.1], r2)
      | _ => none

end

/-- Model of `json.loads`: the whole input (up to surrounding JSON
whitespace) must be a single JSON value. -/
def jsonLoads (s : Str) : Option JVal :=
  match pJVal (s.length + 1) s with
  | some vr => if (skipJWs vr.2).isEmpty then some vr.1 else none
  | none => none

/-! ## Completion client (`src/utils/llm_helper.py`) -/

/-- One response candidate of the generative backend. -/
structure Candidate where
  finishReason : Int
  parts : List Str
  safetyRatings : Str
deriving DecidableEq

/-- A backend response: candidate list plus the `.text` accessor value. -/
structure GenResponse where
  candidates : List Candidate
  text : Str
deriving DecidableEq

/-- Outcome of the external `model.generate_content(...)` call: a normal
return or a raised exception (carrying its message). -/
inductive CallResult where
  | ok : GenResponse → CallResult
  | exn : Str → CallResult
deriving DecidableEq

def errNotConfigured : Str :=
  "Error: Gemini API not configured. Please check your API key.".toList

def errNoCandidates : Str := "Error: No candidates returned from Gemini.".toList

def errStopped (reason : Int) (safety : Str) : Str :=
  "Error: Model stopped unexpectedly. Reason: ".toList ++ (toString reason).toList ++
    ". Safety Ratings: ".toList ++ safety

def errNoParts : Str :=
  "Error: Model returned no content parts. The input might have been blocked or interpreted as empty.".toList

def errGenerating (e : Str) : Str := "Error generating content: ".toList ++ e

def errTok : Str := "Error".toList

/-- `generate_content` (llm_helper.py, lines 54-93).  `initOk` is the result
of `init_gemini()`; `call` is the outcome of the external backend call (the
`try` body's possible exception included).  The function always returns a
string: exceptions never escape. -/
def generate_content (initOk : Bool) (call : CallResult) : Str :=
  if initOk then
    match call with
    | CallResult.exn e => errGenerating e
    | CallResult.ok resp =>
      match resp.candidates with
      | [] => errNoCandidates
      | cand :: _ =>
        if cand.finishReason == 1 then
          (if cand.parts.isEmpty then errNoParts else resp.text)
        else errStopped cand.finishReason cand.safetyRatings
  else errNotConfigured

/-- The backtick character of the markdown code fences. -/
def btick : Char := Char.ofNat 96

def fenceJsonTok : Str := [btick, btick, btick, 'j', 's', 'o', 'n']

def fenceTok : Str := [btick, btick, btick]

/-- `re.sub(r'^```json\s*', '', s)`: anchored at the string start, so at most
one replacement. -/
def subFenceJsonStart (s : Str) : Str :=
  if fenceJsonTok.isPrefixOf s then lstripPy (s.drop fenceJsonTok.length) else s

/-- `re.sub(r'^```\s*', '', s)`. -/
def subFenceStart (s : Str) : Str :=
  if fenceTok.isPrefixOf s then lstripPy (s.drop fenceTok.length) else s

/-- `re.sub(r'\s*```$', '', s)`: Python's `$` matches at the end of the
string or just before a final newline, and the leftmost match maximises the
whitespace run absorbed before the closing fence. -/
def subFenceEnd (s : Str) : Str :=
  if fenceTok.isSuffixOf s then rstripPy (dropLastN 3 s)
  else if (fenceTok ++ ['\n']).isSuffixOf s then rstripPy (dropLastN 4 s) ++ ['\n']
  else s

/-- The defensive code-fence stripping of `generate_structured_content`
(llm_helper.py, lines 185-187). -/
def stripFences (s : Str) : Str := subFenceEnd (subFenceStart (subFenceJsonStart s))

/-- `generate_structured_content` (llm_helper.py, lines 148-199), modelled
over an abstract `parse` standing for `json.loads` (whose decode failure is
a `none` result).  Connection failure, a raised backend call, an empty
candidate list and an abnormal stop reason all yield `none`. -/
def generate_structured_content {α : Type} (parse : Str → Option α)
    (initOk : Bool) (call : CallResult) : Option α :=
  if initOk then
    match call with
    | CallResult.exn _ => none
    | CallResult.ok resp =>
      match resp.candidates with
      | [] => none
      | cand :: _ =>
        if cand.finishReason == 1 then parse (stripFences resp.text) else none
  else none

/-- A response text wrapped in leading and trailing code-fence markers. -/
def fenceWrap (t : Str) : Str := fenceJsonTok ++ '\n' :: (t ++ '\n' :: fenceTok)

/-- The extraction of `process_audio_to_form` (llm_helper.py, line 138):
`re.search(r'\{.*\}', text, re.DOTALL)`.  The leftmost-greedy match runs
from the first `{` that precedes the last `}` of the text through that last
`}`. -/
def extractJsonSpan (t : Str) : Option Str :=
  match ((t.reverse.dropWhile (fun c => !(c == '}'))).reverse).dropWhile
      (fun c => !(c == '{')) with
  | [] => none
  | fromFirst => some fromFirst

/-- `process_audio_to_form` (llm_helper.py, lines 96-145) from the response
text on: extract the regex span and `json.loads` it; any failure (no match,
decode error) yields `None`. -/
def process_audio_to_form (respText : Str) : Option JVal :=
  match extractJsonSpan respText with
  | some s => jsonLoads s
  | none => none

/-- Spec-side reading of the same step ("the first balanced JSON object
found in the text"): brace-balanced span starting at the first `{`.
`depth` counts the braces opened so far. -/
def takeBalanced : Nat → Str → Option Str
  | _, [] => none
  | depth, c :: rest =>
    if c == '{' then (takeBalanced (depth + 1) rest).map (fun r => c :: r)
    else if c == '}' then
      (if depth ≤ 1 then some [c] else (takeBalanced (depth - 1) rest).map (fun r => c :: r))
    else (takeBalanced depth rest).map (fun r => c :: r)

def firstBalancedSpan (t : Str) : Option Str :=
  match t.dropWhile (fun c => !(c == '{')) with
  | [] => none
  | l => takeBalanced 0 l

/-- Spec-side audio extraction: parse the first balanced JSON object. -/
def specAudioExtract (t : Str) : Option JVal :=
  match firstBalancedSpan t with
  | some s => jsonLoads s
  | none => none

/-! ## Remote table store (`src/utils/db_manager.py`) -/

/-- One spreadsheet row, as a list of cell values. -/
abbrev SheetRow := List Str

/-- The backing sheet: row 1 is the header row. -/
abbrev Sheet := List SheetRow

/-- The `id` column (column A) of a row. -/
def rowId (r : SheetRow) : Str := r.headD []

def expectedHeaders : SheetRow :=
  ["id".toList, "date".toList, "category".toList, "description".toList,
   "impact_metric".toList, "company".toList, "title".toList, "user".toList]

/-- `add_accomplishment` (db_manager.py, lines 76-107).  `newId` stands for
`str(uuid.uuid4())`; `remoteErr` is the possible failure of the external
`sheet.append_row` call, which the function re-raises (`raise e`).
`impactMetric.getD []` is `impact_metric if impact_metric else ""`. -/
def add_accomplishment (newId date category description : Str)
    (impactMetric : Option Str) (company title user : Str)
    (remoteErr : Option Str) (sheet : Sheet) : Except Str Sheet :=
  match remoteErr with
  | some e => Except.error e
  | none =>
    Except.ok
      (sheet ++ [[newId, date, category, description, impactMetric.getD [],
                  company, title, user]])

/-- One record of `get_all_records()`: a data row keyed by the expected
headers (a sheet missing the `user` column yields `user = ""`). -/
structure Acc where
  id : Str
  date : Str
  category : Str
  description : Str
  impactMetric : Str
  company : Str
  title : Str
  user : Str
deriving DecidableEq

/-- Descending comparison on parsed dates; unparseable dates (`NaT`) sort
last, as pandas `sort_values(ascending=False)` places them. -/
def dateGeB : Option Int → Option Int → Bool
  | _, none => true
  | none, some _ => false
  | some a, some b => b ≤ a

/-- `get_accomplishments` (db_manager.py, lines 110-148).  `dateKey` models
`pd.to_datetime(..., errors='coerce')` (a `none` is `NaT`) and `dateRender`
the subsequent `strftime` rendering of the date column; both are external
pandas behaviour.  With a truthy `user` the rows are filtered to that user
before sorting. -/
def get_accomplishments (dateKey : Str → Option Int) (dateRender : Str → Str)
    (user : Option Str) (records : List Acc) : List Acc :=
  let filtered :=
    match user with
    | some u => if u.isEmpty then records else records.filter (fun r => r.user == u)
    | none => records
  let sorted :=
    List.insertionSort (fun a b => dateGeB (dateKey a.date) (dateKey b.date) = true) filtered
  sorted.map (fun r => { r with date := dateRender r.date })

/-- `gspread` `Worksheet.find(query)`: row-major scan for the first cell
whose value equals the query; 1-based (row, column). -/
def findCellAux (q : Str) : Nat → Sheet → Option (Nat × Nat)
  | _, [] => none
  | rowNum, row :: rest =>
    match row.findIdx? (fun c => c == q) with
    | some colIdx => some (rowNum, colIdx + 1)
    | none => findCellAux q (rowNum + 1) rest

def findCell (q : Str) (sheet : Sheet) : Option (Nat × Nat) := findCellAux q 1 sheet

/-- `delete_accomplishment` (db_manager.py, lines 151-168): find the first
cell matching the id value, delete that cell's row; warn (second component
`true`) if nothing matches. -/
def delete_accomplishment (q : Str) (sheet : Sheet) : Sheet × Bool :=
  match findCell q sheet with
  | some rc => (sheet.eraseIdx (rc.1 - 1), false)
  | none => (sheet, true)

/-- `update_accomplishment` (db_manager.py, lines 193-242): find the first
cell matching the id value and overwrite columns B..G of that cell's row in
one range write; columns A (`id`) and H (`user`) are not written.  Warn
(second component `true`) if nothing matches. -/
def update_accomplishment (q date category description : Str)
    (impactMetric : Option Str) (company title : Str) (sheet : Sheet) :
    Sheet × Bool :=
  match findCell q sheet with
  | some rc =>
    let row := sheet.getD (rc.1 - 1) []
    let newRow := row.take 1 ++
      [date, category, description, impactMetric.getD [], company, title] ++ row.drop 7
    (sheet.set (rc.1 - 1) newRow, false)
  | none => (sheet, true)

/-! ## Session application: finalize step and filenames (`src/Home.py`) -/

/-- One `Experience` entry of a generated profile. -/
structure JobDetails where
  startDate : Str
  endDate : Str
  summary : Str
  accomplishments : List Str
deriving DecidableEq

/-- The `Resume` part of a generated profile; `Experience` is an ordered
mapping of job label to details, `Education` is carried through the
finalize step untouched and is kept abstract as labelled blobs. -/
structure ResumeData where
  professionalSummary : Str
  experience : List (Str × JobDetails)
  education : List (Str × Str)
deriving DecidableEq

/-- A generated profile (`st.session_state['generated_profile']`). -/
structure Profile where
  fitScore : Str
  company : Str
  jobTitle : Str
  coverLetter : Str
  resume : ResumeData
deriving DecidableEq

/-- The widget-backed session state read by the finalize handler.  The
total functions absorb `st.session_state.get(key, default)`: a key that was
never set resolves to the widget default (inclusion `True`, texts the
original profile text). -/
structure EditState where
  clEdit : Str
  profSumEdit : Str
  jobInclude : Nat → Bool
  jobSummaryEdit : Nat → Str
  accInclude : Nat → Nat → Bool
  accTextEdit : Nat → Nat → Str

/-- The accomplishment filtering loop of the finalize handler (Home.py,
lines 529-538): bullet `j` of job `i` is kept when its inclusion box is
checked and its edited text is non-blank after `strip()`. -/
def buildAccs (es : EditState) (i : Nat) : Nat → List Str → List Str
  | _, [] => []
  | j, _ :: rest =>
    if es.accInclude i j then
      (if (pyStrip (es.accTextEdit i j)).isEmpty then buildAccs es i (j + 1) rest
       else es.accTextEdit i j :: buildAccs es i (j + 1) rest)
    else buildAccs es i (j + 1) rest

/-- `new_job_details` for an included job `i` (Home.py, lines 523-538). -/
def transformJob (es : EditState) (i : Nat) (jd : JobDetails) : JobDetails :=
  { jd with
    summary := es.jobSummaryEdit i
    accomplishments := buildAccs es i 0 jd.accomplishments }

/-- The `new_experience` rebuild loop of the finalize handler (Home.py,
lines 517-541). -/
def buildExperience (es : EditState) : Nat → List (Str × JobDetails) → List (Str × JobDetails)
  | _, [] => []
  | i, (k, jd) :: rest =>
    if es.jobInclude i then (k, transformJob es i jd) :: buildExperience es (i + 1) rest
    else buildExperience es (i + 1) rest

/-- The full data assembly of the 'Apply Changes & Generate PDFs' handler
(Home.py, lines 503-543): this `final_data` snapshot is the only structure
passed on to the two PDF renderers. -/
def finalizeData (p : Profile) (es : EditState) : Profile :=
  { p with
    coverLetter := es.clEdit
    resume :=
      { p.resume with
        professionalSummary := es.profSumEdit
        experience := buildExperience es 0 p.resume.experience } }

/-- The character class kept by `re.sub(r'[^a-zA-Z0-9_]', '', ...)`. -/
def isWordChar (c : Char) : Bool :=
  c == '_' || ('0' ≤ c && c ≤ '9') || ('a' ≤ c && c ≤ 'z') || ('A' ≤ c && c ≤ 'Z')

/-- `sanitize` (Home.py, lines 561-563): falsy input becomes "unknown";
otherwise spaces turn into underscores, the string is lower-cased and every
character outside `[a-zA-Z0-9_]` is removed.  `Char.toLower` matches
Python's `str.lower` on the ASCII range; non-ASCII characters, where the
two differ, are removed by the filter either way. -/
def sanitize (s : Str) : Str :=
  if s.isEmpty then "unknown".toList
  else ((s.map (fun c => if c == ' ' then '_' else c)).map Char.toLower).filter isWordChar

/-- Python `a or b` for strings. -/
def pyOrStr (a b : Str) : Str := if a.isEmpty then b else a

/-- The exported base filename (Home.py, lines 565-568). -/
def base_filename (userName companyName : Str) : Str :=
  sanitize (pyOrStr userName "applicant".toList) ++
    '_' :: sanitize (pyOrStr companyName "company".toList)

/-- Spec-side reading of the sanitization ("lower-cased, non-alphanumeric
characters stripped"), for comparison with `sanitize`. -/
def specSanitize (s : Str) : Str := (s.map Char.toLower).filter Char.isAlphanum

/-- Spec-side base filename built from `specSanitize`. -/
def specBaseFilename (userName companyName : Str) : Str :=
  specSanitize userName ++ '_' :: specSanitize companyName

/-! ## List and string kit -/

section ListKit

variable {α : Type} (p : α → Bool)

theorem dropWhile_append_of_eq_nil {l₁ : List α} (h : l₁.dropWhile p = [])
    (l₂ : List α) : (l₁ ++ l₂).dropWhile p = l₂.dropWhile p := by
  induction l₁ with
  | nil => simp
  | cons a l ih =>
    cases hp : p a with
    | true =>
      simp only [List.dropWhile_cons, hp, if_true] at h
      simp [List.cons_append, List.dropWhile_cons, hp, ih h]
    | false => simp [List.dropWhile_cons, hp] at h

theorem dropWhile_append_of_ne_nil {l₁ : List α} (h : l₁.dropWhile p ≠ [])
    (l₂ : List α) : (l₁ ++ l₂).dropWhile p = l₁.dropWhile p ++ l₂ := by
  induction l₁ with
  | nil => simp at h
  | cons a l ih =>
    cases hp : p a with
    | true =>
      simp only [List.dropWhile_cons, hp, if_true] at h
      simp [List.cons_append, List.dropWhile_cons, hp, ih h]
    | false => simp [List.cons_append, List.dropWhile_cons, hp]

theorem dropWhile_eq_nil_of_all {l : List α} (h : ∀ x ∈ l, p x = true) :
    l.dropWhile p = [] := by
  induction l with
  | nil => simp
  | cons a l ih =>
    simp only [List.dropWhile_cons, h a (by simp), if_true]
    exact ih fun x hx => h x (by simp [hx])

theorem head_not_of_dropWhile_cons {l : List α} {a : α} {l' : List α}
    (h : l.dropWhile p = a :: l') : p a = false := by
  induction l with
  | nil => simp at h
  | cons b l ih =>
    cases hp : p b with
    | true =>
      simp only [List.dropWhile_cons, hp, if_true] at h
      exact ih h
    | false =>
      simp only [List.dropWhile_cons, hp] at h
      rw [if_neg (by simp)] at h
      cases h
      exact hp

theorem dropWhile_idem (l : List α) :
    (l.dropWhile p).dropWhile p = l.dropWhile p := by
  cases h : l.dropWhile p with
  | nil => simp
  | cons a l' =>
    have := head_not_of_dropWhile_cons p h
    simp [List.dropWhile_cons, this]

theorem dropWhile_eq_nil_iff_all (l : List α) :
    l.dropWhile p = [] ↔ ∀ x ∈ l, p x = true := by
  constructor
  · induction l with
    | nil => simp
    | cons a l ih =>
      intro h x hx
      cases hp : p a with
      | true =>
        simp only [List.dropWhile_cons, hp, if_true] at h
        rcases List.mem_cons.mp hx with rfl | hx'
        · exact hp
        · exact ih h x hx'
      | false => simp [List.dropWhile_cons, hp] at h
  · exact dropWhile_eq_nil_of_all p

theorem dropWhile_eq_self_of_head {l : List α} {a : α} {l' : List α}
    (hl : l = a :: l') (ha : p a = false) : l.dropWhile p = l := by
  subst hl
  simp [List.dropWhile_cons, ha]

end ListKit

theorem rstripPy_cons (c : Char) (l : Str) :
    rstripPy (c :: l) =
      if rstripPy l = [] then (if isPySpace c then [] else [c])
      else c :: rstripPy l := by
  unfold rstripPy
  by_cases h : l.reverse.dropWhile isPySpace = []
  · rw [List.reverse_cons, dropWhile_append_of_eq_nil isPySpace h [c]]
    simp only [h, List.reverse_nil, if_true, reduceIte]
    by_cases hc : isPySpace c <;> simp [List.dropWhile, hc]
  · rw [List.reverse_cons, dropWhile_append_of_ne_nil isPySpace h [c]]
    have hne : ¬ (l.reverse.dropWhile isPySpace).reverse = [] := by
      simpa using h
    simp [hne]

theorem head?_rstripPy {l : Str} (h : rstripPy l ≠ []) :
    (rstripPy l).head? = l.head? := by
  cases l with
  | nil => simp [rstripPy] at h
  | cons c l' =>
    rw [rstripPy_cons] at h ⊢
    by_cases h0 : rstripPy l' = []
    · simp only [h0, if_true, reduceIte] at h ⊢
      by_cases hc : isPySpace c
      · simp [hc] at h
      · simp [hc]
    · simp [h0]

theorem lstripPy_eq_nil_of_rstripPy_eq_nil {l : Str} (h : rstripPy l = []) :
    lstripPy l = [] := by
  have hrev : l.reverse.dropWhile isPySpace = [] := by
    simpa [rstripPy, List.reverse_eq_nil_iff] using h
  have hall := (dropWhile_eq_nil_iff_all isPySpace l.reverse).mp hrev
  refine dropWhile_eq_nil_of_all isPySpace ?_
  intro x hx
  exact hall x (by simpa using hx)

theorem head?_pyStrip {t : Str} (h : pyStrip t ≠ []) :
    (pyStrip t).head? = (t.dropWhile isPySpace).head? :=
  head?_rstripPy h

/-- The last character of a stripped string is the first non-whitespace
character seen when scanning the original string from the right. -/
theorem getLast?_pyStrip {t : Str} (h : pyStrip t ≠ []) :
    (pyStrip t).getLast? = (t.reverse.dropWhile isPySpace).head? := by
  have hsplit : t = t.takeWhile isPySpace ++ lstripPy t :=
    (List.takeWhile_append_dropWhile isPySpace t).symm
  have hl : (lstripPy t).reverse.dropWhile isPySpace ≠ [] := by
    intro hz
    exact h (by simpa [pyStrip, rstripPy, List.reverse_eq_nil_iff] using hz)
  have hrev : t.reverse.dropWhile isPySpace =
      (lstripPy t).reverse.dropWhile isPySpace ++ (t.takeWhile isPySpace).reverse := by
    conv_lhs => rw [hsplit]
    rw [List.reverse_append]
    exact dropWhile_append_of_ne_nil isPySpace hl _
  rw [hrev]
  rw [show pyStrip t = ((lstripPy t).reverse.dropWhile isPySpace).reverse from rfl]
  rw [List.getLast?_reverse, List.head?_append]
  cases hh : ((lstripPy t).reverse.dropWhile isPySpace).head? with
  | none => exact absurd (List.head?_eq_none_iff.mp hh) hl
  | some c => simp

theorem pyStrip_ne_nil_of_head? {t : Str} {c : Char}
    (h : (pyStrip t).head? = some c) : pyStrip t ≠ [] := by
  intro hz
  rw [hz] at h
  simp at h

theorem of_isPrefixOf {pat t : Str} (h : pat.isPrefixOf t = true) :
    ∃ u, t = pat ++ u := by
  rcases List.isPrefixOf_iff_prefix.mp h with ⟨u, hu⟩
  exact ⟨u, hu.symm⟩

theorem isPrefixOf_append_self (pat u : Str) : pat.isPrefixOf (pat ++ u) = true :=
  List.isPrefixOf_iff_prefix.mpr ⟨u, rfl⟩

theorem head?_of_isPrefixOf {pat t : Str} {c : Char} (hpat : pat.head? = some c)
    (h : pat.isPrefixOf t = true) : t.head? = some c := by
  rcases of_isPrefixOf h with ⟨u, rfl⟩
  cases pat with
  | nil => simp at hpat
  | cons p ps => simpa using hpat

theorem lstripPy_rstripPy_of_lstripped {l : Str} (h : lstripPy l = l) :
    lstripPy (rstripPy l) = rstripPy l := by
  cases hr : rstripPy l with
  | nil => rfl
  | cons c r =>
    have hrne : rstripPy l ≠ [] := by simp [hr]
    have hh : l.head? = some c := by
      have hhr := head?_rstripPy hrne
      rw [hr] at hhr
      simpa using hhr.symm
    rcases l with _ | ⟨a, l'⟩
    · simp at hh
    · have ha : a = c := by simpa using hh
      subst ha
      have hpa : isPySpace a = false := head_not_of_dropWhile_cons isPySpace h
      exact dropWhile_eq_self_of_head isPySpace rfl hpa

theorem rstripPy_idem (l : Str) : rstripPy (rstripPy l) = rstripPy l := by
  unfold rstripPy
  rw [List.reverse_reverse, dropWhile_idem]

theorem lstripPy_idem (s : Str) : lstripPy (lstripPy s) = lstripPy s :=
  dropWhile_idem isPySpace s

theorem pyStrip_idem (s : Str) : pyStrip (pyStrip s) = pyStrip s := by
  show rstripPy (lstripPy (rstripPy (lstripPy s))) = rstripPy (lstripPy s)
  rw [lstripPy_rstripPy_of_lstripped (lstripPy_idem s), rstripPy_idem]

theorem lstripPy_ne_nil_of_pyStrip {t : Str} (h : pyStrip t ≠ []) :
    lstripPy t ≠ [] := by
  intro hz
  exact h (by simp [pyStrip, hz, rstripPy])

/-- On a response whose stripped text starts with `{` and ends with `}` (a
JSON object with optional surrounding whitespace), the fence-stripping
substitutions do nothing. -/
theorem stripFences_eq_self {t : Str}
    (h1 : (pyStrip t).head? = some '{') (h2 : (pyStrip t).getLast? = some '}') :
    stripFences t = t := by
  have hne : pyStrip t ≠ [] := pyStrip_ne_nil_of_head? h1
  have hfirst : (t.dropWhile isPySpace).head? = some '{' := by
    rw [← head?_pyStrip hne]
    exact h1
  have hlast : (t.reverse.dropWhile isPySpace).head? = some '}' := by
    rw [← getLast?_pyStrip hne]
    exact h2
  have hns1 : fenceJsonTok.isPrefixOf t = false := by
    cases hb : fenceJsonTok.isPrefixOf t with
    | false => rfl
    | true =>
      rcases of_isPrefixOf hb with ⟨u, rfl⟩
      have hde : (fenceJsonTok ++ u).dropWhile isPySpace = fenceJsonTok ++ u :=
        dropWhile_eq_self_of_head isPySpace
          (show fenceJsonTok ++ u =
            btick :: ([btick, btick, 'j', 's', 'o', 'n'] ++ u) from rfl) rfl
      rw [hde] at hfirst
      exact absurd (Option.some.inj
        ((show (fenceJsonTok ++ u).head? = some btick from rfl).symm.trans hfirst))
        (by decide)
  have hns2 : fenceTok.isPrefixOf t = false := by
    cases hb : fenceTok.isPrefixOf t with
    | false => rfl
    | true =>
      rcases of_isPrefixOf hb with ⟨u, rfl⟩
      have hde : (fenceTok ++ u).dropWhile isPySpace = fenceTok ++ u :=
        dropWhile_eq_self_of_head isPySpace
          (show fenceTok ++ u = btick :: ([btick, btick] ++ u) from rfl) rfl
      rw [hde] at hfirst
      exact absurd (Option.some.inj
        ((show (fenceTok ++ u).head? = some btick from rfl).symm.trans hfirst))
        (by decide)
  have hse1 : fenceTok.isSuffixOf t = false := by
    cases hb : fenceTok.isSuffixOf t with
    | false => rfl
    | true =>
      have hb' : fenceTok.reverse.isPrefixOf t.reverse = true := hb
      rcases of_isPrefixOf hb' with ⟨u, hu⟩
      rw [show fenceTok.reverse = [btick, btick, btick] from rfl] at hu
      rw [hu] at hlast
      have hde : (([btick, btick, btick] ++ u : Str)).dropWhile isPySpace =
          [btick, btick, btick] ++ u :=
        dropWhile_eq_self_of_head isPySpace
          (show ([btick, btick, btick] ++ u : Str) =
            btick :: ([btick, btick] ++ u) from rfl) rfl
      rw [hde] at hlast
      exact absurd (Option.some.inj
        ((show (([btick, btick, btick] ++ u : Str)).head? = some btick from rfl).symm.trans
          hlast)) (by decide)
  have hse2 : (fenceTok ++ ['\n']).isSuffixOf t = false := by
    cases hb : (fenceTok ++ ['\n']).isSuffixOf t with
    | false => rfl
    | true =>
      have hb' : (fenceTok ++ ['\n']).reverse.isPrefixOf t.reverse = true := hb
      rcases of_isPrefixOf hb' with ⟨u, hu⟩
      rw [show (fenceTok ++ ['\n']).reverse = ['\n', btick, btick, btick] from rfl] at hu
      rw [hu] at hlast
      have hde : ((['\n', btick, btick, btick] ++ u : Str)).dropWhile isPySpace =
          [btick, btick, btick] ++ u := by
        rw [show (['\n', btick, btick, btick] ++ u : Str) =
            '\n' :: ([btick, btick, btick] ++ u) from rfl, List.dropWhile_cons,
          show isPySpace '\n' = true from rfl, if_pos rfl]
        exact dropWhile_eq_self_of_head isPySpace
          (show ([btick, btick, btick] ++ u : Str) =
            btick :: ([btick, btick] ++ u) from rfl) rfl
      rw [hde] at hlast
      exact absurd (Option.some.inj
        ((show (([btick, btick, btick] ++ u : Str)).head? = some btick from rfl).symm.trans
          hlast)) (by decide)
  have e1 : subFenceJsonStart t = t := by
    unfold subFenceJsonStart
    rw [hns1]
    simp
  have e2 : subFenceStart t = t := by
    unfold subFenceStart
    rw [hns2]
    simp
  have e3 : subFenceEnd t = t := by
    unfold subFenceEnd
    rw [hse1, hse2]
    simp
  rw [stripFences, e1, e2, e3]

/-- Stripping the fences of a wrapped response recovers the original text up
to outer whitespace. -/
theorem stripFences_fenceWrap {t : Str} (h1 : (pyStrip t).head? = some '{') :
    stripFences (fenceWrap t) = pyStrip t := by
  have hne : pyStrip t ≠ [] := pyStrip_ne_nil_of_head? h1
  have hlt : lstripPy t ≠ [] := lstripPy_ne_nil_of_pyStrip hne
  have hps : (pyStrip t).head? = (lstripPy t).head? := head?_rstripPy hne
  have hlhead : (lstripPy t).head? = some '{' := hps.symm.trans h1
  have step1 : subFenceJsonStart (fenceWrap t) = lstripPy t ++ '\n' :: fenceTok := by
    unfold subFenceJsonStart fenceWrap
    rw [isPrefixOf_append_self, if_pos rfl, List.drop_left]
    rw [show lstripPy ('\n' :: (t ++ '\n' :: fenceTok)) =
        lstripPy (t ++ '\n' :: fenceTok) by
      simp [lstripPy, List.dropWhile_cons, isPySpace]]
    exact dropWhile_append_of_ne_nil isPySpace hlt _
  cases lv : lstripPy t with
  | nil => exact absurd lv hlt
  | cons a v =>
    have ha : a = '{' := by
      rw [lv] at hlhead
      simpa using hlhead
    subst ha
    have step2 : subFenceStart (lstripPy t ++ '\n' :: fenceTok) =
        lstripPy t ++ '\n' :: fenceTok := by
      unfold subFenceStart
      rw [lv, List.cons_append]
      rw [show fenceTok.isPrefixOf ('{' :: (v ++ '\n' :: fenceTok)) = false from rfl]
      simp
    have hrev : (lstripPy t ++ '\n' :: fenceTok).reverse =
        btick :: btick :: btick :: '\n' :: (lstripPy t).reverse := by
      simp [fenceTok]
    have step3 : subFenceEnd (lstripPy t ++ '\n' :: fenceTok) = pyStrip t := by
      unfold subFenceEnd
      have hsuf : fenceTok.isSuffixOf (lstripPy t ++ '\n' :: fenceTok) = true := by
        show fenceTok.reverse.isPrefixOf (lstripPy t ++ '\n' :: fenceTok).reverse = true
        rw [hrev]
        rfl
      rw [hsuf, if_pos rfl]
      have hdl : dropLastN 3 (lstripPy t ++ '\n' :: fenceTok) = lstripPy t ++ ['\n'] := by
        unfold dropLastN
        rw [hrev]
        simp
      rw [hdl]
      show ((lstripPy t ++ ['\n']).reverse.dropWhile isPySpace).reverse = pyStrip t
      rw [List.reverse_append]
      simp only [List.reverse_cons, List.reverse_nil, List.nil_append,
        List.singleton_append]
      rw [show List.dropWhile isPySpace ('\n' :: (lstripPy t).reverse) =
          List.dropWhile isPySpace (lstripPy t).reverse by
        simp [List.dropWhile_cons, isPySpace]]
      rfl
    rw [stripFences, step1, step2, step3]

/-- Claim C5: a structured-content response that parses to a mapping still
parses to the same mapping after being wrapped in leading/trailing code
fences: the defensive fence stripping makes fenced and unfenced responses
yield equal results.  `parse` abstracts `json.loads`, whose result is
insensitive to surrounding whitespace (`hP`); the two shape hypotheses say
the original response text is a JSON object up to outer whitespace. -/
theorem C5_claim {α : Type} (parse : Str → Option α) (cands : List Candidate)
    (text : Str) (m : α)
    (hP : ∀ s, parse (pyStrip s) = parse s)
    (h1 : (pyStrip text).head? = some '{')
    (h2 : (pyStrip text).getLast? = some '}')
    (hm : generate_structured_content parse true (CallResult.ok ⟨cands, text⟩) = some m) :
    generate_structured_content parse true
      (CallResult.ok ⟨cands, fenceWrap text⟩) = some m := by
  cases cands with
  | nil =>
    rw [show generate_structured_content parse true
        (CallResult.ok ⟨[], text⟩) = none from rfl] at hm
    cases hm
  | cons cand rest =>
    have hc1 : generate_structured_content parse true
        (CallResult.ok ⟨cand :: rest, text⟩) =
        if (cand.finishReason == 1) = true then parse (stripFences text) else none := rfl
    have hc2 : generate_structured_content parse true
        (CallResult.ok ⟨cand :: rest, fenceWrap text⟩) =
        if (cand.finishReason == 1) = true then parse (stripFences (fenceWrap text))
        else none := rfl
    rw [hc1] at hm
    rw [hc2]
    cases hf : cand.finishReason == 1 with
    | false =>
      rw [hf] at hm
      simp at hm
    | true =>
      rw [hf] at hm
      simp only [if_true] at hm ⊢
      rw [stripFences_eq_self h1 h2] at hm
      rw [stripFences_fenceWrap h1, hP]
      exact hm

/-- Witness for C5 at the concrete response text `{}` and a parse function
returning the stripped text. -/
theorem C5_witness :
    generate_structured_content (fun s => some (pyStrip s)) true
      (CallResult.ok ⟨[⟨1, [], []⟩], ['{', '}']⟩) = some ['{', '}'] ∧
    generate_structured_content (fun s => some (pyStrip s)) true
      (CallResult.ok ⟨[⟨1, [], []⟩], fenceWrap ['{', '}']⟩) = some ['{', '}'] :=
  ⟨by decide,
   C5_claim (fun s => some (pyStrip s)) [⟨1, [], []⟩] ['{', '}'] ['{', '}']
     (fun s => congrArg some (pyStrip_idem s)) (by decide) (by decide) (by decide)⟩

theorem isPrefixOf_append_left {p a : Str} (h : p.isPrefixOf a = true) (b : Str) :
    p.isPrefixOf (a ++ b) = true := by
  rcases of_isPrefixOf h with ⟨u, rfl⟩
  rw [List.append_assoc]
  exact isPrefixOf_append_self p (u ++ b)

/-- Claim C7: `generate_content` never raises: it returns the raw response
text exactly when the backend call succeeded with a first candidate that
stopped normally (`finish_reason = 1`) with non-empty content parts, and in
every other situation (configuration failure, raised backend call, no
candidates, abnormal stop, empty parts) it returns a string beginning with
"Error" as its value.  The function's type (`Str`, not an exception monad)
is itself the embedding of "never raises". -/
theorem C7_claim (initOk : Bool) (call : CallResult) :
    (∀ resp cand rest, initOk = true → call = CallResult.ok resp →
      resp.candidates = cand :: rest → cand.finishReason = 1 → cand.parts ≠ [] →
      generate_content initOk call = resp.text) ∧
    ((initOk = false ∨ (∃ e, call = CallResult.exn e) ∨
      (∃ resp, call = CallResult.ok resp ∧
        (resp.candidates = [] ∨ ∃ cand rest, resp.candidates = cand :: rest ∧
          (cand.finishReason ≠ 1 ∨ cand.parts = [])))) →
      errTok.isPrefixOf (generate_content initOk call) = true) := by
  constructor
  · intro resp cand rest hio hc hcand hf hp
    subst hio
    subst hc
    have hparts : cand.parts.isEmpty = false := by
      simpa [List.isEmpty_iff] using hp
    simp [generate_content, hcand, hf, hparts]
  · intro h
    cases initOk with
    | false =>
      show errTok.isPrefixOf errNotConfigured = true
      decide
    | true =>
      rcases h with h | ⟨e, rfl⟩ | ⟨resp, rfl, hbad⟩
      · cases h
      · show errTok.isPrefixOf (errGenerating e) = true
        exact isPrefixOf_append_left (by decide) e
      · rcases hbad with hnil | ⟨cand, rest, hcand, hbad⟩
        · simp only [generate_content, hnil]
          decide
        · rcases hbad with hstop | hparts
          · have hf : (cand.finishReason == 1) = false := by simp [hstop]
            simp only [generate_content, hcand, hf, if_true, if_false, Bool.false_eq_true]
            unfold errStopped
            refine isPrefixOf_append_left (isPrefixOf_append_left (isPrefixOf_append_left ?_ _) _) _
            decide
          · have hf : cand.parts.isEmpty = true := by simp [hparts]
            by_cases hs : (cand.finishReason == 1) = true
            · simp only [generate_content, hcand, hs, if_true, hf]
              show errTok.isPrefixOf errNoParts = true
              decide
            · have hs' : (cand.finishReason == 1) = false := by simpa using hs
              simp only [generate_content, hcand, hs', Bool.false_eq_true, if_false]
              unfold errStopped
              refine isPrefixOf_append_left (isPrefixOf_append_left (isPrefixOf_append_left ?_ _) _) _
              decide

/-- Witness for C7: a normal-stop response returns its raw text, and with
the backend unconfigured the returned value is an "Error" string. -/
theorem C7_witness :
    generate_content true (CallResult.ok ⟨[⟨1, [['p']], []⟩], "hi".toList⟩) = "hi".toList ∧
    errTok.isPrefixOf (generate_content false
      (CallResult.ok ⟨[⟨1, [['p']], []⟩], "hi".toList⟩)) = true :=
  ⟨(C7_claim true (CallResult.ok ⟨[⟨1, [['p']], []⟩], "hi".toList⟩)).1
      ⟨[⟨1, [['p']], []⟩], "hi".toList⟩ ⟨1, [['p']], []⟩ [] rfl rfl rfl rfl (by decide),
   (C7_claim false (CallResult.ok ⟨[⟨1, [['p']], []⟩], "hi".toList⟩)).2 (Or.inl rfl)⟩

/-! ## Remote table store claims -/

/-- Claim C2: a valid submission with non-empty description appends exactly
one row carrying the freshly generated id (`newId`, standing for
`uuid.uuid4()`, assumed fresh in the uniqueness conjunct) and the submitted
field values, so the row count grows by exactly one; a failing remote
append call is propagated to the caller (`raise e`). -/
theorem C2_claim (newId date category description : Str)
    (impactMetric : Option Str) (company title user : Str) (sheet : Sheet)
    (hde : description ≠ []) :
    (∀ e, add_accomplishment newId date category description impactMetric
        company title user (some e) sheet = Except.error e) ∧
    (∃ sheet', add_accomplishment newId date category description impactMetric
        company title user none sheet = Except.ok sheet' ∧
      sheet'.length = sheet.length + 1 ∧
      sheet' = sheet ++ [[newId, date, category, description,
        impactMetric.getD [], company, title, user]] ∧
      ((∀ r ∈ sheet, rowId r ≠ newId) → (sheet.map rowId).Nodup →
        (sheet'.map rowId).Nodup)) := by
  refine ⟨fun e => rfl, _, rfl, by simp, rfl, ?_⟩
  intro hfresh hnd
  have hnew : (sheet ++ [[newId, date, category, description,
      impactMetric.getD [], company, title, user]]).map rowId =
      sheet.map rowId ++ [newId] := by
    simp [rowId]
  rw [hnew, List.nodup_append]
  refine ⟨hnd, List.nodup_singleton _, ?_⟩
  intro x hx hy
  rcases List.mem_map.mp hx with ⟨r, hr, rfl⟩
  rw [List.mem_singleton] at hy
  exact hfresh r hr hy

/-- Witness for C2: the error of a failing remote append is propagated. -/
theorem C2_witness :
    add_accomplishment "n1".toList "2024-01-10".toList "c".toList
      "Led migration".toList (some "i".toList) "co".toList "t".toList
      "alice".toList (some "boom".toList) [expectedHeaders] =
      Except.error "boom".toList :=
  (C2_claim "n1".toList "2024-01-10".toList "c".toList "Led migration".toList
      (some "i".toList) "co".toList "t".toList "alice".toList [expectedHeaders]
      (by decide)).1 "boom".toList

/-- Claim C3: for every table state and non-empty user `u`, every record
returned by `get_accomplishments` for `u` has its `user` field equal to `u`
(so no record of another user and no legacy record with an empty user field
ever appears).  `dateKey`/`dateRender` abstract the external pandas date
parsing and re-rendering, which touch only the `date` column. -/
theorem C3_claim (dateKey : Str → Option Int) (dateRender : Str → Str)
    (u : Str) (records : List Acc) (hu : u ≠ []) :
    ∀ r ∈ get_accomplishments dateKey dateRender (some u) records, r.user = u := by
  intro r hr
  have hue : u.isEmpty = false := by simpa [List.isEmpty_iff] using hu
  simp only [get_accomplishments, hue, Bool.false_eq_true, if_false] at hr
  rcases List.mem_map.mp hr with ⟨r₀, hr₀, rfl⟩
  have hperm := List.perm_insertionSort
    (fun a b => dateGeB (dateKey a.date) (dateKey b.date) = true)
    (records.filter (fun x => x.user == u))
  have hr₀f : r₀ ∈ records.filter (fun x => x.user == u) := hperm.mem_iff.mp hr₀
  have hbeq := List.of_mem_filter hr₀f
  simpa using hbeq

/-- Witness for C3: listing for "alice" over a table that also holds a
"bob" row and a legacy row with an empty user returns the "alice" record. -/
theorem C3_witness :
    (⟨"a1".toList, "2024-01-10".toList, "c".toList, "d".toList, "i".toList,
      "co".toList, "t".toList, "alice".toList⟩ : Acc).user = "alice".toList :=
  C3_claim (fun _ => none) (fun s => s) "alice".toList
    [⟨"a1".toList, "2024-01-10".toList, "c".toList, "d".toList, "i".toList,
      "co".toList, "t".toList, "alice".toList⟩,
     ⟨"b1".toList, "2024-02-02".toList, "c".toList, "d".toList, "i".toList,
      "co".toList, "t".toList, "bob".toList⟩,
     ⟨"l1".toList, "2024-03-03".toList, "c".toList, "d".toList, "i".toList,
      "co".toList, "t".toList, []⟩]
    (by decide)
    ⟨"a1".toList, "2024-01-10".toList, "c".toList, "d".toList, "i".toList,
      "co".toList, "t".toList, "alice".toList⟩
    (by decide)

theorem findCellAux_eq_none {q : Str} {sheet : Sheet}
    (h : ∀ row ∈ sheet, ∀ c ∈ row, c ≠ q) : ∀ n, findCellAux q n sheet = none := by
  induction sheet with
  | nil => intro n; rfl
  | cons row rest ih =>
    intro n
    have hrow : row.findIdx? (fun c => c == q) = none := by
      rw [List.findIdx?_eq_none_iff]
      intro x hx
      simpa using h row (by simp) x hx
    have htail := ih (fun r hr c hc => h r (by simp [hr]) c hc) (n + 1)
    simp [findCellAux, hrow, htail]

/-- Claim C8 (amended): deleting an id that matches no cell of the sheet
leaves the table unchanged and produces a warning rather than an error.
(The original claim's premise "matches no row" is weakened by the code:
`sheet.find` scans every cell, not just the id column — see the
counterexample.) -/
theorem C8_claim (q : Str) (sheet : Sheet)
    (h : ∀ row ∈ sheet, ∀ c ∈ row, c ≠ q) :
    delete_accomplishment q sheet = (sheet, true) := by
  unfold delete_accomplishment findCell
  rw [findCellAux_eq_none h 1]

/-- Witness for C8 on a header-only sheet and an id matching nothing. -/
theorem C8_witness :
    delete_accomplishment "zzz".toList [expectedHeaders] = ([expectedHeaders], true) :=
  C8_claim "zzz".toList [expectedHeaders] (by decide)

/-- Counterexample to C8 as stated: the id value "alice" matches no row's
id (the only data row has id "a"), yet `delete_accomplishment` finds the
literal "alice" in the `user` cell of that row and deletes the row — the
table shrinks and no warning is produced. -/
theorem C8_counterexample :
    "alice".toList ∉
      ([["a".toList, "2024-01-01".toList, "c".toList, "d".toList, "i".toList,
         "co".toList, "t".toList, "alice".toList]].map rowId) ∧
    delete_accomplishment "alice".toList
      [expectedHeaders,
       ["a".toList, "2024-01-01".toList, "c".toList, "d".toList, "i".toList,
        "co".toList, "t".toList, "alice".toList]] =
      ([expectedHeaders], false) := by
  constructor
  · decide
  · rfl

theorem findCellAux_bounds {q : Str} :
    ∀ (sheet : Sheet) (n r c : Nat),
      findCellAux q n sheet = some (r, c) → n ≤ r ∧ r - n < sheet.length := by
  intro sheet
  induction sheet with
  | nil => intro n r c h; cases h
  | cons row rest ih =>
    intro n r c h
    cases hf : row.findIdx? (fun x => x == q) with
    | some ci =>
      simp only [findCellAux, hf] at h
      cases h
      simp only [List.length_cons]
      omega
    | none =>
      simp only [findCellAux, hf] at h
      have := ih (n + 1) r c h
      constructor
      · omega
      · simp only [List.length_cons]
        omega

/-- Claim C4 (amended): when the first cell of the whole-sheet scan that
equals the id value is the id cell (column A) of a data row, updating
overwrites only that row's content columns B..G: the row's id and user
cells and every other row are unchanged, and no warning is produced.  (The
original claim's premise "the id exists in the table" is not enough — the
scan can hit an equal value in another column first; see the
counterexample.) -/
theorem C4_claim (q date category description : Str) (impactMetric : Option Str)
    (company title : Str) (sheet : Sheet) (r : Nat)
    (c0 c1 c2 c3 c4 c5 c6 c7 : Str)
    (hfind : findCell q sheet = some (r, 1))
    (hr2 : 2 ≤ r)
    (hrow : sheet.getD (r - 1) [] = [c0, c1, c2, c3, c4, c5, c6, c7]) :
    (update_accomplishment q date category description impactMetric company title
      sheet).2 = false ∧
    (update_accomplishment q date category description impactMetric company title
      sheet).1.length = sheet.length ∧
    (∀ k, k ≠ r - 1 →
      (update_accomplishment q date category description impactMetric company title
        sheet).1.getD k [] = sheet.getD k []) ∧
    (update_accomplishment q date category description impactMetric company title
      sheet).1.getD (r - 1) [] =
      [c0, date, category, description, impactMetric.getD [], company, title, c7] := by
  have hb := findCellAux_bounds sheet 1 r 1 hfind
  have hlt : r - 1 < sheet.length := by omega
  have hnew : update_accomplishment q date category description impactMetric company
      title sheet =
      (sheet.set (r - 1) [c0, date, category, description, impactMetric.getD [],
        company, title, c7], false) := by
    unfold update_accomplishment
    rw [hfind]
    simp only [hrow]
    rfl
  rw [hnew]
  refine ⟨rfl, List.length_set sheet _ _, ?_, ?_⟩
  · intro k hk
    rw [List.getD_eq_getElem?_getD, List.getD_eq_getElem?_getD,
      List.getElem?_set_ne (by omega)]
  · rw [List.getD_eq_getElem?_getD, List.getElem?_set_self hlt]
    rfl

/-- Witness for C4: updating id "a", whose first scan hit is its own id
cell, rewrites only columns B..G of its row. -/
theorem C4_witness :
    (update_accomplishment "a".toList "D".toList "C".toList "S".toList none
      "O".toList "T".toList
      [expectedHeaders,
       ["a".toList, "2024-01-01".toList, "c".toList, "d".toList, "i".toList,
        "co".toList, "t".toList, "alice".toList]]).1.getD 1 [] =
      ["a".toList, "D".toList, "C".toList, "S".toList, [], "O".toList,
       "T".toList, "alice".toList] ∧
    (update_accomplishment "a".toList "D".toList "C".toList "S".toList none
      "O".toList "T".toList
      [expectedHeaders,
       ["a".toList, "2024-01-01".toList, "c".toList, "d".toList, "i".toList,
        "co".toList, "t".toList, "alice".toList]]).1.getD 0 [] = expectedHeaders :=
  ⟨(C4_claim "a".toList "D".toList "C".toList "S".toList none "O".toList "T".toList
      [expectedHeaders,
       ["a".toList, "2024-01-01".toList, "c".toList, "d".toList, "i".toList,
        "co".toList, "t".toList, "alice".toList]] 2
      "a".toList "2024-01-01".toList "c".toList "d".toList "i".toList "co".toList
      "t".toList "alice".toList (by decide) (by decide) (by decide)).2.2.2,
   (C4_claim "a".toList "D".toList "C".toList "S".toList none "O".toList "T".toList
      [expectedHeaders,
       ["a".toList, "2024-01-01".toList, "c".toList, "d".toList, "i".toList,
        "co".toList, "t".toList, "alice".toList]] 2
      "a".toList "2024-01-01".toList "c".toList "d".toList "i".toList "co".toList
      "t".toList "alice".toList (by decide) (by decide) (by decide)).2.2.1 0
      (by decide)⟩

/-- Counterexample to C4 as stated: the table holds a row with id "b"
(row 3), but another row's description cell also equals "b" and the
whole-sheet scan hits it first: the update clobbers the content of row 2
(id "a") — a row other than the matching one changes — while the row whose
id is "b" stays untouched. -/
theorem C4_counterexample :
    (update_accomplishment "b".toList "X".toList "Y".toList "Z".toList none
      "W".toList "V".toList
      [expectedHeaders,
       ["a".toList, "2024-01-01".toList, "cat".toList, "b".toList, "im".toList,
        "co".toList, "ti".toList, "alice".toList],
       ["b".toList, "2024-02-02".toList, "cat2".toList, "d2".toList, "im2".toList,
        "co2".toList, "ti2".toList, "bob".toList]]).1 =
      [expectedHeaders,
       ["a".toList, "X".toList, "Y".toList, "Z".toList, [], "W".toList,
        "V".toList, "alice".toList],
       ["b".toList, "2024-02-02".toList, "cat2".toList, "d2".toList, "im2".toList,
        "co2".toList, "ti2".toList, "bob".toList]] ∧
    rowId (["a".toList, "2024-01-01".toList, "cat".toList, "b".toList, "im".toList,
      "co".toList, "ti".toList, "alice".toList]) ≠ "b".toList ∧
    rowId (["b".toList, "2024-02-02".toList, "cat2".toList, "d2".toList,
      "im2".toList, "co2".toList, "ti2".toList, "bob".toList]) = "b".toList := by
  refine ⟨by decide, by decide, by decide⟩

/-! ## Audio-extraction claims -/

theorem extractJsonSpan_split {a b c : Str} (ha : '{' ∉ a) (hc : '}' ∉ c) :
    extractJsonSpan (a ++ '{' :: (b ++ '}' :: c)) = some ('{' :: (b ++ ['}'])) := by
  have hrev : (a ++ '{' :: (b ++ '}' :: c)).reverse =
      c.reverse ++ '}' :: (b.reverse ++ '{' :: a.reverse) := by
    simp
  have hcall : c.reverse.dropWhile (fun x => !(x == '}')) = [] := by
    refine dropWhile_eq_nil_of_all _ ?_
    intro x hx
    have hxc : x ∈ c := List.mem_reverse.mp hx
    have : x ≠ '}' := fun hxe => hc (hxe ▸ hxc)
    simpa using this
  have hrev2 : ('}' :: (b.reverse ++ '{' :: a.reverse)).reverse =
      a ++ '{' :: (b ++ ['}']) := by
    simp
  have haall : a.dropWhile (fun x => !(x == '{')) = [] := by
    refine dropWhile_eq_nil_of_all _ ?_
    intro x hx
    have : x ≠ '{' := fun hxe => ha (hxe ▸ hx)
    simpa using this
  have hscrut : (((a ++ '{' :: (b ++ '}' :: c)).reverse.dropWhile
      (fun x => !(x == '}'))).reverse).dropWhile (fun x => !(x == '{')) =
      '{' :: (b ++ ['}']) := by
    rw [hrev, dropWhile_append_of_eq_nil _ hcall]
    rw [show List.dropWhile (fun x => !(x == '}')) ('}' :: (b.reverse ++ '{' :: a.reverse)) =
        '}' :: (b.reverse ++ '{' :: a.reverse) by simp [List.dropWhile_cons]]
    rw [hrev2, dropWhile_append_of_eq_nil _ haall]
    simp [List.dropWhile_cons]
  unfold extractJsonSpan
  rw [hscrut]

theorem extractJsonSpan_none {t : Str} (h : '{' ∉ t) : extractJsonSpan t = none := by
  have hall : (t.reverse.dropWhile (fun x => !(x == '}'))).reverse.dropWhile
      (fun x => !(x == '{')) = [] := by
    refine dropWhile_eq_nil_of_all _ ?_
    intro x hx
    have hx1 : x ∈ t.reverse.dropWhile (fun x => !(x == '}')) := List.mem_reverse.mp hx
    have hx2 : x ∈ t.reverse := (List.dropWhile_sublist _).mem hx1
    have hx3 : x ∈ t := List.mem_reverse.mp hx2
    have : x ≠ '{' := fun hxe => h (hxe ▸ hx3)
    simpa using this
  unfold extractJsonSpan
  rw [hall]

/-- Claim C6 (amended): the extraction step of `process_audio_to_form`
selects the span running from the first `{` of the response text through
the last `}` (the leftmost-greedy match of `\{.*\}` with DOTALL) and
returns `json.loads` of it, and returns none when the text holds no `{`.
(The claim's "first balanced JSON object" is not what the greedy pattern
selects; see the counterexample.) -/
theorem C6_claim :
    (∀ a b c : Str, '{' ∉ a → '}' ∉ c →
      process_audio_to_form (a ++ '{' :: (b ++ '}' :: c)) =
        jsonLoads ('{' :: (b ++ ['}']))) ∧
    (∀ t : Str, '{' ∉ t → process_audio_to_form t = none) := by
  constructor
  · intro a b c ha hc
    unfold process_audio_to_form
    rw [extractJsonSpan_split ha hc]
  · intro t ht
    unfold process_audio_to_form
    rw [extractJsonSpan_none ht]

/-- Witness for C6 on the text `x{}y`: the span is `{}` and it parses to
the empty JSON object. -/
theorem C6_witness :
    process_audio_to_form ['x', '{', '}', 'y'] = jsonLoads ['{', '}'] ∧
    jsonLoads ['{', '}'] = some (JVal.jobj []) :=
  ⟨C6_claim.1 ['x'] [] ['y'] (by decide) (by decide), rfl⟩

/-- Counterexample to C6 as stated: on the response text `{} {}` the first
balanced JSON object is `{}`, which parses to the empty mapping, but the
greedy span is the whole text, which is not valid JSON, so the call
returns none instead of that mapping. -/
theorem C6_counterexample :
    process_audio_to_form ['{', '}', ' ', '{', '}'] = none ∧
    specAudioExtract ['{', '}', ' ', '{', '}'] = some (JVal.jobj []) ∧
    (none : Option JVal) ≠ some (JVal.jobj []) :=
  ⟨rfl, rfl, fun h => Option.noConfusion h⟩

/-! ## Finalize-step claims -/

theorem mem_buildAccs_iff (es : EditState) (i : Nat) :
    ∀ (n : Nat) (l : List Str) (s : Str),
      s ∈ buildAccs es i n l ↔
        ∃ j, j < l.length ∧ es.accInclude i (n + j) = true ∧
          pyStrip (es.accTextEdit i (n + j)) ≠ [] ∧ s = es.accTextEdit i (n + j) := by
  intro n l
  induction l generalizing n with
  | nil =>
    intro s
    simp [buildAccs]
  | cons a rest ih =>
    intro s
    have hshift : ∀ s' : Str, s' ∈ buildAccs es i (n + 1) rest →
        ∃ j, j < (a :: rest).length ∧ es.accInclude i (n + j) = true ∧
          pyStrip (es.accTextEdit i (n + j)) ≠ [] ∧ s' = es.accTextEdit i (n + j) := by
      intro s' hs'
      rcases (ih (n + 1) s').mp hs' with ⟨j, hj, h1, h2, h3⟩
      have he : n + 1 + j = n + (j + 1) := by omega
      rw [he] at h1 h2 h3
      exact ⟨j + 1, by simpa using Nat.succ_lt_succ hj, h1, h2, h3⟩
    have hunshift : ∀ (j' : Nat) (s' : Str), j' < rest.length →
        es.accInclude i (n + (j' + 1)) = true →
        pyStrip (es.accTextEdit i (n + (j' + 1))) ≠ [] →
        s' = es.accTextEdit i (n + (j' + 1)) →
        s' ∈ buildAccs es i (n + 1) rest := by
      intro j' s' hj h1 h2 h3
      have he : n + (j' + 1) = n + 1 + j' := by omega
      rw [he] at h1 h2 h3
      exact (ih (n + 1) s').mpr ⟨j', hj, h1, h2, h3⟩
    cases hinc : es.accInclude i n with
    | false =>
      rw [show buildAccs es i n (a :: rest) = buildAccs es i (n + 1) rest by
        simp [buildAccs, hinc]]
      constructor
      · exact hshift s
      · rintro ⟨j, hj, h1, h2, h3⟩
        cases j with
        | zero =>
          rw [Nat.add_zero, hinc] at h1
          cases h1
        | succ j' =>
          exact hunshift j' s (by simpa [List.length_cons] using hj) h1 h2 h3
    | true =>
      cases hstrip : (pyStrip (es.accTextEdit i n)).isEmpty with
      | true =>
        rw [show buildAccs es i n (a :: rest) = buildAccs es i (n + 1) rest by
          simp [buildAccs, hinc, hstrip]]
        constructor
        · exact hshift s
        · rintro ⟨j, hj, h1, h2, h3⟩
          cases j with
          | zero =>
            rw [Nat.add_zero] at h2
            rw [List.isEmpty_iff] at hstrip
            exact absurd hstrip h2
          | succ j' =>
            exact hunshift j' s (by simpa [List.length_cons] using hj) h1 h2 h3
      | false =>
        rw [show buildAccs es i n (a :: rest) =
            es.accTextEdit i n :: buildAccs es i (n + 1) rest by
          simp [buildAccs, hinc, hstrip]]
        rw [List.mem_cons]
        constructor
        · rintro (rfl | hmem)
          · refine ⟨0, by simp, ?_, ?_, ?_⟩ <;> rw [Nat.add_zero]
            · exact hinc
            · simpa [List.isEmpty_iff] using hstrip
          · exact hshift s hmem
        · rintro ⟨j, hj, h1, h2, h3⟩
          cases j with
          | zero =>
            rw [Nat.add_zero] at h3
            exact Or.inl h3
          | succ j' =>
            exact Or.inr (hunshift j' s (by simpa [List.length_cons] using hj) h1 h2 h3)

theorem mem_buildExperience_iff (es : EditState) :
    ∀ (n : Nat) (l : List (Str × JobDetails)) (e : Str × JobDetails),
      e ∈ buildExperience es n l ↔
        ∃ m, m < l.length ∧ es.jobInclude (n + m) = true ∧
          e = ((l.getD m ([], ⟨[], [], [], []⟩)).1,
            transformJob es (n + m) (l.getD m ([], ⟨[], [], [], []⟩)).2) := by
  intro n l
  induction l generalizing n with
  | nil =>
    intro e
    simp [buildExperience]
  | cons p rest ih =>
    intro e
    obtain ⟨k, jd⟩ := p
    have hshift : ∀ e' : Str × JobDetails, e' ∈ buildExperience es (n + 1) rest →
        ∃ m, m < ((k, jd) :: rest).length ∧ es.jobInclude (n + m) = true ∧
          e' = ((((k, jd) :: rest).getD m ([], ⟨[], [], [], []⟩)).1,
            transformJob es (n + m) ((((k, jd) :: rest).getD m ([], ⟨[], [], [], []⟩)).2)) := by
      intro e' he'
      rcases (ih (n + 1) e').mp he' with ⟨m, hm, h1, h2⟩
      have he : n + 1 + m = n + (m + 1) := by omega
      rw [he] at h1 h2
      refine ⟨m + 1, by simpa using Nat.succ_lt_succ hm, h1, ?_⟩
      simpa [List.getD_cons_succ] using h2
    have hunshift : ∀ (m' : Nat) (e' : Str × JobDetails), m' < rest.length →
        es.jobInclude (n + (m' + 1)) = true →
        e' = ((rest.getD m' ([], ⟨[], [], [], []⟩)).1,
          transformJob es (n + (m' + 1)) ((rest.getD m' ([], ⟨[], [], [], []⟩)).2)) →
        e' ∈ buildExperience es (n + 1) rest := by
      intro m' e' hm h1 h2
      have he : n + (m' + 1) = n + 1 + m' := by omega
      rw [he] at h1 h2
      exact (ih (n + 1) e').mpr ⟨m', hm, h1, h2⟩
    cases hinc : es.jobInclude n with
    | false =>
      rw [show buildExperience es n ((k, jd) :: rest) = buildExperience es (n + 1) rest by
        simp [buildExperience, hinc]]
      constructor
      · exact hshift e
      · rintro ⟨m, hm, h1, h2⟩
        cases m with
        | zero =>
          rw [Nat.add_zero, hinc] at h1
          cases h1
        | succ m' =>
          refine hunshift m' e (by simpa [List.length_cons] using hm) h1 ?_
          simpa [List.getD_cons_succ] using h2
    | true =>
      rw [show buildExperience es n ((k, jd) :: rest) =
          (k, transformJob es n jd) :: buildExperience es (n + 1) rest by
        simp [buildExperience, hinc]]
      rw [List.mem_cons]
      constructor
      · rintro (rfl | hmem)
        · refine ⟨0, by simp, ?_, ?_⟩ <;> rw [Nat.add_zero]
          · exact hinc
          · simp [List.getD_cons_zero]
        · exact hshift e hmem
      · rintro ⟨m, hm, h1, h2⟩
        cases m with
        | zero =>
          rw [Nat.add_zero] at h2
          rw [List.getD_cons_zero] at h2
          exact Or.inl h2
        | succ m' =>
          refine Or.inr (hunshift m' e (by simpa [List.length_cons] using hm) h1 ?_)
          simpa [List.getD_cons_succ] using h2

/-- Claim C1 (amended): the data snapshot assembled by 'Apply Changes &
Generate PDFs' — the only structure handed to the renderers — contains
exactly the included items: a job whose inclusion flag is off contributes
no entry (its label is absent, given the profile's job labels are distinct,
as JSON object keys are); a job whose flag is on contributes an entry under
its label whose summary is the edited summary and whose bullet list holds
an edited text only for included bullets, and holds every included bullet
whose edited text is non-blank.  (The unamended claim also promised
included blank bullets; the counterexample shows those are dropped.) -/
theorem C1_claim (p : Profile) (es : EditState) (i : Nat)
    (hi : i < p.resume.experience.length) :
    (es.jobInclude i = false →
      (p.resume.experience.map Prod.fst).Nodup →
      ∀ e ∈ (finalizeData p es).resume.experience,
        e.1 ≠ (p.resume.experience.getD i ([], ⟨[], [], [], []⟩)).1) ∧
    (es.jobInclude i = true →
      ∃ jd, ((p.resume.experience.getD i ([], ⟨[], [], [], []⟩)).1, jd) ∈
          (finalizeData p es).resume.experience ∧
        jd.summary = es.jobSummaryEdit i ∧
        (∀ s ∈ jd.accomplishments, ∃ j,
          j < (p.resume.experience.getD i ([], ⟨[], [], [], []⟩)).2.accomplishments.length ∧
          es.accInclude i j = true ∧ pyStrip (es.accTextEdit i j) ≠ [] ∧
          s = es.accTextEdit i j) ∧
        (∀ j, j < (p.resume.experience.getD i ([], ⟨[], [], [], []⟩)).2.accomplishments.length →
          es.accInclude i j = true → pyStrip (es.accTextEdit i j) ≠ [] →
          es.accTextEdit i j ∈ jd.accomplishments)) := by
  have hfin : (finalizeData p es).resume.experience =
      buildExperience es 0 p.resume.experience := rfl
  constructor
  · intro hninc hnodup e he heq
    rw [hfin] at he
    rcases (mem_buildExperience_iff es 0 p.resume.experience e).mp he with ⟨m, hm, h1, h2⟩
    rw [Nat.zero_add] at h1 h2
    have hkey : (p.resume.experience.getD m ([], ⟨[], [], [], []⟩)).1 =
        (p.resume.experience.getD i ([], ⟨[], [], [], []⟩)).1 := by
      rw [← heq, h2]
    rw [List.getD_eq_getElem _ _ hm, List.getD_eq_getElem _ _ hi] at hkey
    have hmapm : m < (p.resume.experience.map Prod.fst).length := by
      rw [List.length_map]
      exact hm
    have hmapi : i < (p.resume.experience.map Prod.fst).length := by
      rw [List.length_map]
      exact hi
    have hgm : (p.resume.experience.map Prod.fst)[m] =
        (p.resume.experience.map Prod.fst)[i] := by
      rw [List.getElem_map, List.getElem_map]
      exact hkey
    have : m = i := (hnodup.getElem_inj_iff).mp hgm
    subst this
    rw [h1] at hninc
    cases hninc
  · intro hinc
    refine ⟨transformJob es i (p.resume.experience.getD i ([], ⟨[], [], [], []⟩)).2,
      ?_, rfl, ?_, ?_⟩
    · rw [hfin]
      refine (mem_buildExperience_iff es 0 p.resume.experience _).mpr ⟨i, hi, ?_, ?_⟩
      · rw [Nat.zero_add]
        exact hinc
      · rw [Nat.zero_add]
    · intro s hs
      have hs' : s ∈ buildAccs es i 0
          (p.resume.experience.getD i ([], ⟨[], [], [], []⟩)).2.accomplishments := hs
      rcases (mem_buildAccs_iff es i 0 _ s).mp hs' with ⟨j, hj, h1, h2, h3⟩
      rw [Nat.zero_add] at h1 h2 h3
      exact ⟨j, hj, h1, h2, h3⟩
    · intro j hj h1 h2
      refine (mem_buildAccs_iff es i 0 _ _).mpr ⟨j, hj, ?_, ?_, ?_⟩ <;> rw [Nat.zero_add]
      · exact h1
      · exact h2

/-- Counterexample to C1 as stated: a profile with one job whose single
bullet is the blank text " "; with every inclusion flag on (and the edited
texts equal to the originals), the assembled snapshot keeps the job but
drops the included bullet — an included entry is absent from the assembled
data. -/
theorem C1_counterexample :
    (EditState.accInclude
      ⟨[], [], fun _ => true, fun _ => [], fun _ _ => true, fun _ _ => [' ']⟩ 0 0 = true) ∧
    (finalizeData
      ⟨[], [], [], [],
        ⟨[], [(['J'], ⟨[], [], [' '], [[' ']]⟩)], []⟩⟩
      ⟨[], [], fun _ => true, fun _ => [], fun _ _ => true,
        fun _ _ => [' ']⟩).resume.experience =
      [(['J'], ⟨[], [], [], []⟩)] :=
  ⟨rfl, rfl⟩

/-- Witness for C1: with two jobs "A" and "B" and job 0 excluded, the
entry of the assembled experience has a label different from "A". -/
theorem C1_witness :
    ((['B'], (⟨[], [], ['e'], [['z']]⟩ : JobDetails)) : Str × JobDetails).1 ≠
      (([(['A'], (⟨[], [], ['s'], [['x']]⟩ : JobDetails)),
         (['B'], (⟨[], [], ['t'], [['y']]⟩ : JobDetails))] :
        List (Str × JobDetails)).getD 0 ([], ⟨[], [], [], []⟩)).1 :=
  (C1_claim
    ⟨[], [], [], [],
      ⟨[], [(['A'], ⟨[], [], ['s'], [['x']]⟩), (['B'], ⟨[], [], ['t'], [['y']]⟩)], []⟩⟩
    ⟨[], [], fun n => n != 0, fun _ => ['e'], fun _ _ => true, fun _ _ => ['z']⟩
    0 (by decide)).1 (by decide) (by decide)
    (['B'], ⟨[], [], ['e'], [['z']]⟩) (by decide)

/-- Claim C10: the assembled Accomplishments lists of the finalize snapshot
never contain blank entries: every bullet string that survives into the
assembled data is non-empty after stripping whitespace (an included bullet
with blank edited text is dropped). -/
theorem C10_claim (p : Profile) (es : EditState) :
    ∀ e ∈ (finalizeData p es).resume.experience,
      ∀ s ∈ e.2.accomplishments, pyStrip s ≠ [] := by
  intro e he s hs
  have hfin : (finalizeData p es).resume.experience =
      buildExperience es 0 p.resume.experience := rfl
  rw [hfin] at he
  rcases (mem_buildExperience_iff es 0 p.resume.experience e).mp he with ⟨m, hm, h1, h2⟩
  have hs' : s ∈ buildAccs es (0 + m) 0
      ((p.resume.experience.getD m ([], ⟨[], [], [], []⟩)).2).accomplishments := by
    rw [h2] at hs
    exact hs
  rcases (mem_buildAccs_iff es (0 + m) 0 _ s).mp hs' with ⟨j, hj, hj1, hj2, hj3⟩
  rw [hj3]
  exact hj2

/-- Witness for C10 at a concrete profile and edit state. -/
theorem C10_witness : pyStrip ['z'] ≠ [] :=
  C10_claim
    ⟨[], [], [], [],
      ⟨[], [(['A'], ⟨[], [], ['s'], [['x']]⟩), (['B'], ⟨[], [], ['t'], [['y']]⟩)], []⟩⟩
    ⟨[], [], fun n => n != 0, fun _ => ['e'], fun _ _ => true, fun _ _ => ['z']⟩
    (['B'], ⟨[], [], ['e'], [['z']]⟩) (by decide) ['z'] (by decide)

/-! ## Filename sanitization claims -/

theorem toNat_ofNat_small {n : Nat} (h2 : n ≤ 122) : (Char.ofNat n).toNat = n := by
  have hv : n.isValidChar := Or.inl (by omega)
  simp only [Char.ofNat, hv, dif_pos, Char.ofNatAux, Char.toNat, UInt32.toNat]
  simp [BitVec.toNat_ofNat]

theorem toLower_not_upper (c : Char) :
    ¬ (65 ≤ (Char.toLower c).toNat ∧ (Char.toLower c).toNat ≤ 90) := by
  unfold Char.toLower
  by_cases h : c.toNat ≥ 65 ∧ c.toNat ≤ 90
  · rw [if_pos h, toNat_ofNat_small (by omega)]
    omega
  · rw [if_neg h]
    omega

/-- Claim C9 (amended): the base filename of the exports is the sanitized
`{user}_{company}` pattern where sanitization lower-cases, turns spaces
into underscores and strips every character that is neither alphanumeric
nor an underscore; consequently every character of the base filename is a
lower-case letter, a digit, or an underscore.  (The unamended claim said
all non-alphanumeric characters are stripped; the counterexample shows
spaces survive as underscores.) -/
theorem C9_claim (u c : Str) :
    base_filename u c =
      sanitize (pyOrStr u "applicant".toList) ++
        '_' :: sanitize (pyOrStr c "company".toList) ∧
    ∀ ch ∈ base_filename u c,
      ('a' ≤ ch ∧ ch ≤ 'z') ∨ ('0' ≤ ch ∧ ch ≤ '9') ∨ ch = '_' := by
  have hsan : ∀ (s : Str), ∀ ch ∈ sanitize s,
      ('a' ≤ ch ∧ ch ≤ 'z') ∨ ('0' ≤ ch ∧ ch ≤ '9') ∨ ch = '_' := by
    intro s ch hch
    unfold sanitize at hch
    by_cases hs : s.isEmpty = true
    · rw [if_pos hs] at hch
      have hall : ∀ x ∈ ("unknown".toList : Str),
          ('a' ≤ x ∧ x ≤ 'z') ∨ ('0' ≤ x ∧ x ≤ '9') ∨ x = '_' := by decide
      exact hall ch hch
    · rw [if_neg hs] at hch
      have hcls := List.of_mem_filter hch
      have hmem := (List.mem_filter.mp hch).1
      rcases List.mem_map.mp hmem with ⟨c₀, hc₀, rfl⟩
      have hw : (((Char.toLower c₀ = '_' ∨
          ('0' ≤ Char.toLower c₀ ∧ Char.toLower c₀ ≤ '9')) ∨
          ('a' ≤ Char.toLower c₀ ∧ Char.toLower c₀ ≤ 'z')) ∨
          ('A' ≤ Char.toLower c₀ ∧ Char.toLower c₀ ≤ 'Z')) := by
        simpa [isWordChar, Bool.or_eq_true, Bool.and_eq_true, decide_eq_true_eq]
          using hcls
      rcases hw with ((h | h) | h) | h
      · exact Or.inr (Or.inr h)
      · exact Or.inr (Or.inl h)
      · exact Or.inl h
      · exact absurd
          (And.intro (show 65 ≤ (Char.toLower c₀).toNat from h.1)
            (show (Char.toLower c₀).toNat ≤ 90 from h.2))
          (toLower_not_upper c₀)
  refine ⟨rfl, ?_⟩
  intro ch hch
  unfold base_filename at hch
  rcases List.mem_append.mp hch with h | h
  · exact hsan _ ch h
  · rcases List.mem_cons.mp h with rfl | h2
    · exact Or.inr (Or.inr rfl)
    · exact hsan _ ch h2

/-- Counterexample to C9 as stated: for user "Jane Doe" and company "Acme"
the code produces "jane_doe_acme" — the space inside the user name becomes
an underscore instead of being stripped — while the claim's sanitization
("lower-case, strip every non-alphanumeric character") gives
"janedoe_acme". -/
theorem C9_counterexample :
    base_filename "Jane Doe".toList "Acme".toList = "jane_doe_acme".toList ∧
    specBaseFilename "Jane Doe".toList "Acme".toList = "janedoe_acme".toList ∧
    "jane_doe_acme".toList ≠ "janedoe_acme".toList := by
  refine ⟨by decide, by decide, by decide⟩

/-- Witness for C9 at user "Jane Doe", company "Acme", character 'j'. -/
theorem C9_witness :
    ('a' ≤ 'j' ∧ 'j' ≤ 'z') ∨ ('0' ≤ 'j' ∧ 'j' ≤ '9') ∨ 'j' = '_' :=
  (C9_claim "Jane Doe".toList "Acme".toList).2 'j' (by decide)
